import Mathlib

/-!
Shallow embedding of the `createQuery` cache client from `src/query.js`
(vaniy). JavaScript's single-threaded cooperative scheduling is modelled
by explicit state passing: the synchronous phase of `query` is a pure
function on a cache state, and the `.then` / `.catch` continuations that
run when the retry-wrapped fetch promise settles are an explicit `settle`
step. Timestamps are natural-number milliseconds; `Date.now()` values are
passed in as parameters. The fetcher is modelled as a function from the
0-based invocation index to a result, so retry behaviour is deterministic
and executable.
-/

set_option autoImplicit false

namespace Vaniy

/-- Cache keys (JS strings). -/
abbrev Key := String

/-- Fetched values. JS truthiness of an `Int` value is `v ≠ 0`. -/
abbrev Val := Int

/-- Errors thrown by the fetcher (opaque payloads, modelled as strings). -/
abbrev Err := String

/-- A JavaScript data slot: `undefined`, `null`, or an actual value.
`saveToStorage` distinguishes `undefined` (skipped) from `null`
(persisted), and `entry?.data ?? null` maps `undefined` to `null`. -/
inductive JData where
  | undef
  | null
  | val (v : Val)
deriving DecidableEq, Repr

/-- `x ?? null` on a data slot: `undefined` collapses to `null`. -/
def JData.orNull : JData → JData
  | .undef => .null
  | d => d

/-- JS truthiness of a data slot (`!!d`). -/
def JData.truthy : JData → Bool
  | .undef => false
  | .null => false
  | .val v => v ≠ 0

/-- A cache entry, as stored in the `cache` map of `createQuery`.
`promise` holds the identifier of the in-flight retry-wrapped fetch
promise, or `none`. The entry `{...null, promise}` that `query` creates
for a previously-uncached key has `data = undef` and
`staleAt = expiry = 0` (JS `now < undefined` is false, like `now < 0`,
and `undefined ?? 0` is `0`). -/
structure Entry where
  data : JData
  staleAt : Nat
  expiry : Nat
  promise : Option Nat
  error : Option Err
deriving DecidableEq, Repr

/-- Association-list lookup with decidable key equality (models
`Map.get`; keys in a JS `Map` are unique, so first match is the match). -/
def lookupA {α : Type} [DecidableEq Key] (k : Key) : List (Key × α) → Option α
  | [] => none
  | (k', v) :: rest => if k = k' then some v else lookupA k rest

/-- Association-list update (models `Map.set`: overwrite in place if the
key is present, append otherwise). -/
def setA {α : Type} (k : Key) (v : α) : List (Key × α) → List (Key × α)
  | [] => [(k, v)]
  | (k', v') :: rest => if k = k' then (k, v) :: rest else (k', v') :: setA k v rest

/-- Association-list delete (models `Map.delete`). -/
def delA {α : Type} (k : Key) (l : List (Key × α)) : List (Key × α) :=
  l.filter (fun x => x.1 ≠ k)

/-- Lifecycle notifications published on the event bus. `emit(event, key,
data)` publishes on both the global and the per-key topic; the payload is
recorded once here. -/
inductive Event where
  | hit (k : Key) (d : JData)
  | fetch (k : Key) (isStale : Bool) (hasCache : Bool)
  | retry (k : Key) (attempt maxRetries delay : Nat) (e : Err)
  | success (k : Key) (d : JData)
  | error (k : Key) (e : Err) (staleData : JData)
  | gcEvent (collected : List Key)
  | pollingStart (k : Key) (interval : Nat)
  | pollingStop (k : Key)
deriving DecidableEq, Repr

deriving instance DecidableEq for Except

/-- Result and observable trace of one `fetchWithRetry` run: the settled
result, the number of fetcher invocations, the back-off sleeps performed
(in order), and the "retry" notifications emitted (in order). -/
structure FetchRun where
  result : Except Err Val
  calls : Nat
  delays : List Nat
  events : List Event
deriving DecidableEq, Repr

/-- The retry loop of `fetchWithRetry` from iteration `attempt`, with
`remaining` further iterations allowed (the JS loop runs `attempt` from 0
to `retries` inclusive, so initially `remaining = retries`). On failure
with iterations remaining it emits a "retry" notification with the
1-based attempt number, `maxRetries = retries`, and delay
`retryDelay * 2 ^ attempt`, then sleeps that long before retrying; after
the last iteration it propagates the last error. -/
def fetchGo (k : Key) (fetcher : Nat → Except Err Val) (retries retryDelay : Nat) :
    Nat → Nat → FetchRun
  | attempt, remaining =>
    match fetcher attempt with
    | .ok v => ⟨.ok v, 1, [], []⟩
    | .error e =>
      match remaining with
      | 0 => ⟨.error e, 1, [], []⟩
      | r + 1 =>
        let delay := retryDelay * 2 ^ attempt
        let rest := fetchGo k fetcher retries retryDelay (attempt + 1) r
        ⟨rest.result, rest.calls + 1, delay :: rest.delays,
          Event.retry k (attempt + 1) retries delay e :: rest.events⟩

/-- `fetchWithRetry(key, fetcher, retries, retryDelay)` (src/query.js
lines 73–95), as a pure run description. -/
def fetchWithRetry (k : Key) (fetcher : Nat → Except Err Val) (retries retryDelay : Nat) :
    FetchRun :=
  fetchGo k fetcher retries retryDelay 0 retries

/-- The data recorded for an in-flight retry-wrapped fetch promise: the
key it fetches, the snapshot of `getEntry(key)` captured when `query`
started it (the closure variable `entry`, used by the `.catch` branch),
and the `staleTime` / `ttl` options captured by the `.then` branch. -/
structure Pending where
  key : Key
  snapshot : Option Entry
  staleTime : Nat
  ttl : Nat
deriving DecidableEq, Repr

/-- State of one `createQuery` client relevant to `query`: the entry
store, the in-flight fetches (promise id → data), a fresh-id counter, and
the log of emitted notifications. -/
structure QState where
  cache : List (Key × Entry)
  pending : List (Nat × Pending)
  nextP : Nat
  events : List Event
deriving DecidableEq, Repr

/-- Lookup in the pending-fetch table (promise ids are unique). -/
def lookupP {α : Type} (p : Nat) : List (Nat × α) → Option α
  | [] => none
  | (p', v) :: rest => if p = p' then some v else lookupP p rest

/-- What the synchronous phase of `query` returns to its caller. -/
inductive Outcome where
  /-- Fresh hit: `entry.data` returned, no fetch. -/
  | hit (d : JData)
  /-- Deduplication: the existing in-flight promise is returned. -/
  | dedup (p : Nat)
  /-- Stale-while-revalidate: stale `entry.data` returned now, fetch `p`
  started in the background. -/
  | staleReturn (d : JData) (p : Nat)
  /-- No usable data: fetch `p` started and the caller awaits it. -/
  | awaitP (p : Nat)
deriving DecidableEq, Repr

/-- `getEntry(key)` (src/query.js line 71). -/
def getEntry (s : QState) (k : Key) : Option Entry :=
  lookupA k s.cache

/-- The synchronous phase of `query(key, fetcher, options)` (src/query.js
lines 97–152), from entry lookup to the `return`. Starting the
retry-wrapped fetch is modelled by allocating a fresh promise id and
recording a `Pending`; `cache.set(key, {...entry, promise})` stores that
id on the (possibly freshly created) entry. For an absent entry the JS
spread `{...null, promise}` yields an object whose `data` is `undefined`
and whose `staleAt` / `expiry` are `undefined`; `undefined` timestamps
compare like `0` and are replaced by `0` via `?? 0` everywhere they are
read, so they are encoded as `0`. -/
def query (s : QState) (k : Key) (now staleTime ttl : Nat) : Outcome × QState :=
  match getEntry s k with
  | some e =>
    if now < e.staleAt then
      (.hit e.data, { s with events := s.events ++ [.hit k e.data] })
    else
      match e.promise with
      | some p => (.dedup p, s)
      | none =>
        let isStale := now < e.expiry
        let p := s.nextP
        let s' : QState :=
          { cache := setA k { e with promise := some p } s.cache
            pending := (p, ⟨k, some e, staleTime, ttl⟩) :: s.pending
            nextP := p + 1
            events := s.events ++ [.fetch k isStale true] }
        if isStale then (.staleReturn e.data p, s') else (.awaitP p, s')
  | none =>
    let p := s.nextP
    let s' : QState :=
      { cache := setA k ⟨.undef, 0, 0, some p, none⟩ s.cache
        pending := (p, ⟨k, none, staleTime, ttl⟩) :: s.pending
        nextP := p + 1
        events := s.events ++ [.fetch k false false] }
    (.awaitP p, s')

/-- `entry?.data ?? null` for the snapshot captured at `query` start:
absent entry or `undefined` data collapse to `null`. -/
def snapData (sn : Option Entry) : JData :=
  ((sn.map Entry.data).getD .undef).orNull

/-- `entry?.staleAt ?? 0` for the snapshot. -/
def snapStale (sn : Option Entry) : Nat :=
  (sn.map Entry.staleAt).getD 0

/-- `entry?.expiry ?? 0` for the snapshot. -/
def snapExpiry (sn : Option Entry) : Nat :=
  (sn.map Entry.expiry).getD 0

/-- Settlement of the retry-wrapped fetch promise `p` with result `res`
at time `now`: the `.then` / `.catch` continuations of `query`
(src/query.js lines 121–145). The first component is the value the
promise settles with for every caller awaiting it (`return data` resp.
`throw error`). -/
def settle (s : QState) (p : Nat) (res : Except Err Val) (now : Nat) :
    Except Err Val × QState :=
  match lookupP p s.pending with
  | none => (res, s)
  | some pd =>
    let rest := s.pending.filter (fun x => x.1 ≠ p)
    match res with
    | .ok v =>
      (.ok v,
        { cache := setA pd.key
            ⟨.val v, now + pd.staleTime, now + pd.ttl, none, none⟩ s.cache
          pending := rest
          nextP := s.nextP
          events := s.events ++ [.success pd.key (.val v)] })
    | .error e =>
      (.error e,
        { cache := setA pd.key
            ⟨snapData pd.snapshot, snapStale pd.snapshot, snapExpiry pd.snapshot,
             none, some e⟩ s.cache
          pending := rest
          nextP := s.nextP
          events := s.events ++ [.error pd.key e (snapData pd.snapshot)] })

/-- `n` simultaneous `query` calls for the same key: the calls run back
to back at the same timestamp with no settlement in between (JS is
single-threaded; the synchronous phase of each call completes before the
next starts). Returns each caller's outcome, in call order. -/
def simulQueries (s : QState) (k : Key) (now staleTime ttl : Nat) :
    Nat → List Outcome × QState
  | 0 => ([], s)
  | n + 1 =>
    let (o, s') := query s k now staleTime ttl
    let (os, s'') := simulQueries s' k now staleTime ttl n
    (o :: os, s'')

/-- An entry as persisted by `saveToStorage`: only `data`, `staleAt` and
`expiry` survive serialization (no `promise`, no `error`). -/
structure StoredEntry where
  data : JData
  staleAt : Nat
  expiry : Nat
deriving DecidableEq, Repr

/-- `saveToStorage()` (src/query.js lines 44–62): serialize every cache
entry whose `data` is defined and — when a `persistedKeys` allow-list is
configured — whose key starts with one of the configured prefixes, into
one blob (modelled as an association list with the cache's key order). -/
def saveToStorage (persistedKeys : Option (List Key)) :
    List (Key × Entry) → List (Key × StoredEntry)
  | [] => []
  | (k, e) :: rest =>
    if e.data = .undef then saveToStorage persistedKeys rest
    else
      match persistedKeys with
      | some pks =>
        if pks.any (fun pk => k.startsWith pk) then
          (k, ⟨e.data, e.staleAt, e.expiry⟩) :: saveToStorage persistedKeys rest
        else saveToStorage persistedKeys rest
      | none => (k, ⟨e.data, e.staleAt, e.expiry⟩) :: saveToStorage persistedKeys rest

/-- `loadFromStorage()` (src/query.js lines 25–42), applied to a parsed
blob: for each persisted key whose `expiry` is still in the future,
`cache.set(key, {...entry, promise: null})` installs it into the entry
store (the restored entry has no `error` field, i.e. `error = none`). -/
def loadFromStorage (cache : List (Key × Entry)) (stored : List (Key × StoredEntry))
    (now : Nat) : List (Key × Entry) :=
  stored.foldl
    (fun c x =>
      if now < x.2.expiry then
        setA x.1 ⟨x.2.data, x.2.staleAt, x.2.expiry, none, none⟩ c
      else c)
    cache

/-- The event-bus listener state relevant to the query client: for each
topic, the ordered set of subscribed handlers (`EVT.listeners`; a JS
`Set` keeps insertion order and ignores duplicate adds). Handlers are
identified by provenance: `subscribe(key, callback)` creates one
`handler` closure registered on the success/error/mutate/set topics and
one distinct anonymous `() => callback(null)` closure registered on the
invalidate topic; handlers not created by `subscribe` are `other`. -/
inductive Handler where
  | mainH (k : Key)
  | invalH (k : Key)
  | other (n : Nat)
deriving DecidableEq, Repr

abbrev Topic := String

abbrev EvtState := List (Topic × List Handler)

/-- `EVT.sub(name, callback)` (src/evt.js): add to the topic's handler
set, creating the set if absent; adding an already-present handler is a
no-op. -/
def evtSub (t : Topic) (h : Handler) : EvtState → EvtState
  | [] => [(t, [h])]
  | (t', hs) :: rest =>
    if t = t' then (t', if h ∈ hs then hs else hs ++ [h]) :: rest
    else (t', hs) :: evtSub t h rest

/-- `EVT.unsub(name, cb)` (src/evt.js): remove the handler from the
topic's set if both exist; otherwise do nothing. -/
def evtUnsub (t : Topic) (h : Handler) : EvtState → EvtState
  | [] => []
  | (t', hs) :: rest =>
    if t = t' then (t', hs.erase h) :: rest
    else (t', hs) :: evtUnsub t h rest

/-- `EVT.has(name)` (src/evt.js): the topic exists and its handler set is
non-empty. -/
def evtHas (s : EvtState) (t : Topic) : Bool :=
  match lookupA t s with
  | some hs => decide (hs ≠ [])
  | none => false

/-- The handlers `EVT.pub(name, ...)` invokes, in registration order. -/
def evtFired (s : EvtState) (t : Topic) : List Handler :=
  (lookupA t s).getD []

/-- The per-key success topic `query:<key>:success`. -/
def successTopic (k : Key) : Topic := "query:" ++ k ++ ":success"

def errorTopic (k : Key) : Topic := "query:" ++ k ++ ":error"

def mutateTopic (k : Key) : Topic := "query:" ++ k ++ ":mutate"

def setTopic (k : Key) : Topic := "query:" ++ k ++ ":set"

def invalidateTopic (k : Key) : Topic := "query:" ++ k ++ ":invalidate"

/-- The `for` loop of `gc()` over the cache entries: delete (and collect)
every entry with `now > entry.expiry` and no active listener on the
key's success topic; keep the rest. Iteration is in cache order. -/
def gcRun (evt : EvtState) (now : Nat) :
    List (Key × Entry) → List (Key × Entry) × List Key
  | [] => ([], [])
  | (k, e) :: rest =>
    let r := gcRun evt now rest
    if now > e.expiry && !(evtHas evt (successTopic k)) then
      (r.1, k :: r.2)
    else ((k, e) :: r.1, r.2)

/-- `gc()` (src/query.js lines 250–263): sweep the cache, then publish
one `query:gc` notification carrying the collected keys only when the
collected list is non-empty. Returns the new cache, the collected keys,
and the published notifications. -/
def gc (cache : List (Key × Entry)) (evt : EvtState) (now : Nat) :
    List (Key × Entry) × List Key × List Event :=
  let r := gcRun evt now cache
  (r.1, r.2, if r.2.length ≠ 0 then [.gcEvent r.2] else [])

/-- `subscribe(key, callback)` (src/query.js lines 266–286), listener
registrations only: the shared `handler` goes on the success, error,
mutate and set topics; a distinct anonymous closure goes on the
invalidate topic. -/
def subscribe (evt : EvtState) (k : Key) : EvtState :=
  evtSub (invalidateTopic k) (.invalH k)
    (evtSub (setTopic k) (.mainH k)
      (evtSub (mutateTopic k) (.mainH k)
        (evtSub (errorTopic k) (.mainH k)
          (evtSub (successTopic k) (.mainH k) evt))))

/-- The unsubscribe function returned by `subscribe` (src/query.js lines
279–285): it passes the shared `handler` to `EVT.unsub` for all five
topics — including the invalidate topic, where the registered listener
was the distinct anonymous closure, not `handler`. -/
def unsubscribe (evt : EvtState) (k : Key) : EvtState :=
  evtUnsub (invalidateTopic k) (.mainH k)
    (evtUnsub (setTopic k) (.mainH k)
      (evtUnsub (mutateTopic k) (.mainH k)
        (evtUnsub (errorTopic k) (.mainH k)
          (evtUnsub (successTopic k) (.mainH k) evt))))

/-- The arguments with which a given `subscribe(k, callback)`'s callback
runs when the handlers `fired` are invoked by a publication: the shared
`handler` closure passes the merged current entry (`arg`); the anonymous
invalidate closure passes `null` (`none`); handlers belonging to other
subscriptions do not touch this callback. -/
def callbackCalls (fired : List Handler) (k : Key) (arg : Option Entry) :
    List (Option Entry) :=
  fired.filterMap fun h =>
    match h with
    | .mainH k' => if k' = k then some arg else none
    | .invalH k' => if k' = k then some none else none
    | .other _ => none

/-- One `setInterval` registration made by `startPolling`: the interval
length and the absolute time of the next firing. -/
structure Timer where
  interval : Nat
  next : Nat
deriving DecidableEq, Repr

/-- Query-client state together with the `pollingIntervals` map and a log
of the `query` invocations made by the polling layer (key and
timestamp). -/
structure PollState where
  q : QState
  timers : List (Key × Timer)
  log : List (Key × Nat)
deriving DecidableEq, Repr

/-- `stopPolling(key)` (src/query.js lines 210–217): if an interval is
registered for the key, clear it, remove it from the map and emit
`polling:stop`; otherwise do nothing. -/
def stopPolling (s : PollState) (k : Key) : PollState :=
  match lookupA k s.timers with
  | some _ =>
    { s with
      timers := delA k s.timers
      q := { s.q with events := s.q.events ++ [.pollingStop k] } }
  | none => s

/-- The `setInterval` callback registered by `startPolling` (src/query.js
lines 230–234), fired at time `t`: if an entry exists, reset its
`staleAt` to `0` so the subsequent `query` refetches instead of taking
the fresh-hit path, then call `query` (its rejection is swallowed). The
invocation is logged. -/
def pollTick (s : PollState) (k : Key) (t staleTime ttl : Nat) : PollState :=
  let c :=
    match lookupA k s.q.cache with
    | some e => setA k { e with staleAt := 0 } s.q.cache
    | none => s.q.cache
  { s with
    q := (query { s.q with cache := c } k t staleTime ttl).2
    log := s.log ++ [(k, t)] }

/-- `startPolling(key, fetcher, interval, queryOptions)` (src/query.js
lines 225–240) at time `t`: stop any existing poll for the key, fire one
`query` immediately (rejection swallowed), register an interval timer
whose first firing is at `t + interval`, and emit `polling:start`. The
returned stop function is `() => stopPolling(key)`, i.e. `stopPolling`
applied to the same key. -/
def startPolling (s : PollState) (k : Key) (interval : Nat) (t staleTime ttl : Nat) :
    PollState :=
  let s1 := stopPolling s k
  let q' := (query s1.q k t staleTime ttl).2
  { q := { q' with events := q'.events ++ [.pollingStart k interval] }
    timers := setA k ⟨interval, t + interval⟩ s1.timers
    log := s1.log ++ [(k, t)] }

/-- The earliest timer due at or before time `t` (ties broken by map
order, as the event loop fires earlier-registered timers first). -/
def dueTimer (t : Nat) : List (Key × Timer) → Option (Key × Timer)
  | [] => none
  | x :: rest =>
    match dueTimer t rest with
    | none => if x.2.next ≤ t then some x else none
    | some b =>
      if x.2.next ≤ t ∧ x.2.next ≤ b.2.next then some x else some b

/-- Run the event loop up to (and including) time `t`: repeatedly fire
the earliest due interval timer, advancing its next-firing time by its
interval; `fuel` bounds the number of firings. -/
def advance : Nat → PollState → Nat → Nat → Nat → PollState
  | 0, s, _, _, _ => s
  | f + 1, s, t, staleTime, ttl =>
    match dueTimer t s.timers with
    | none => s
    | some x =>
      let s' := pollTick
        { s with timers := setA x.1 ⟨x.2.interval, x.2.next + x.2.interval⟩ s.timers }
        x.1 x.2.next staleTime ttl
      advance f s' t staleTime ttl

/-- The three reactive cells of a `querySignal`. -/
structure SignalState where
  dataC : JData
  loadingC : Bool
  errorC : Option Err
deriving DecidableEq, Repr

/-- The subscription handler of `querySignal` (src/query.js lines
311–315), run with the entry the callback received (`none` models the
invalidate handler's `callback(null)`): a truthy `data` is mirrored into
the `data` cell, a present `error` into the `error` cell, and `loading`
is recomputed as `!!entry?.promise && !entry?.data`. -/
def qsNotify (c : SignalState) (en : Option Entry) : SignalState :=
  match en with
  | some e =>
    let c1 := if e.data.truthy then { c with dataC := e.data } else c
    let c2 :=
      match e.error with
      | some er => { c1 with errorC := some er }
      | none => c1
    { c2 with loadingC := e.promise.isSome && !e.data.truthy }
  | none => { c with loadingC := false }

/-- `querySignal(key, fetcher, options)` (src/query.js lines 306–336) at
time `now`: the cells start as `(options.inital ?? null, false, null)`;
`subscribe`'s immediate callback runs if an entry exists; then, unless
`enabled = false`, `fetch()` sets `loading` to `true` and calls `query`.
Returns the cells, the resulting query state, and the id of the fetch
promise `query` started (if any), whose settlement will reach the cells
through the success/error notification. -/
def querySignal (q : QState) (k : Key) (now staleTime ttl : Nat) (enabled : Bool)
    (inital : JData) : SignalState × QState × Option Nat :=
  let c0 : SignalState := ⟨inital, false, none⟩
  let c1 :=
    match getEntry q k with
    | some e => qsNotify c0 (some e)
    | none => c0
  if enabled then
    let c2 := { c1 with loadingC := true }
    let r := query q k now staleTime ttl
    let p :=
      match r.1 with
      | .awaitP p => some p
      | .staleReturn _ p => some p
      | _ => none
    (c2, r.2, p)
  else (c1, q, none)

/-- Settlement of fetch promise `p` followed by the dispatch of the
emitted success/error notification to a `querySignal` subscribed to the
settled key: the subscription handler reads the entry as updated by the
settlement (`{...getEntry(key), ...payload}`; the payload repeats fields
the entry already carries). -/
def settleNotify (c : SignalState) (q : QState) (p : Nat) (res : Except Err Val)
    (now : Nat) : SignalState × QState :=
  match lookupP p q.pending with
  | none => (c, (settle q p res now).2)
  | some pd =>
    let q' := (settle q p res now).2
    (qsNotify c (getEntry q' pd.key), q')

/-! ## Helper lemmas -/

@[simp] theorem lookupA_nil {α : Type} (k : Key) : lookupA (α := α) k [] = none := rfl

theorem lookupA_cons {α : Type} (k k' : Key) (v : α) (rest : List (Key × α)) :
    lookupA k ((k', v) :: rest) = if k = k' then some v else lookupA k rest := rfl

@[simp] theorem lookupA_setA_self {α : Type} (k : Key) (v : α) (l : List (Key × α)) :
    lookupA k (setA k v l) = some v := by
  induction l with
  | nil => simp [setA, lookupA]
  | cons hd tl ih =>
    obtain ⟨k', v'⟩ := hd
    by_cases h : k = k'
    · simp [setA, lookupA, h]
    · simp [setA, lookupA, h, ih]

@[simp] theorem lookupA_setA_other {α : Type} (k k' : Key) (v : α) (l : List (Key × α))
    (h : k' ≠ k) : lookupA k' (setA k v l) = lookupA k' l := by
  induction l with
  | nil => simp [setA, lookupA, h]
  | cons hd tl ih =>
    obtain ⟨k'', v''⟩ := hd
    by_cases hk : k = k''
    · subst hk
      simp [setA, lookupA, h, ih]
    · by_cases hk' : k' = k''
      · simp [setA, lookupA, hk, hk']
      · simp [setA, lookupA, hk, hk', ih]

theorem setA_setA {α : Type} (k : Key) (a b : α) (l : List (Key × α)) :
    setA k b (setA k a l) = setA k b l := by
  induction l with
  | nil => simp [setA]
  | cons hd tl ih =>
    obtain ⟨k', v'⟩ := hd
    by_cases h : k = k'
    · simp [setA, h]
    · simp [setA, h, ih]

theorem fetchGo_ok (k : Key) (fetcher : Nat → Except Err Val) (es : Nat → Err)
    (retries retryDelay : Nat) (v : Val) (count : Nat) :
    ∀ a r : Nat, count ≤ r →
      (∀ i, i < count → fetcher (a + i) = .error (es (a + i))) →
      fetcher (a + count) = .ok v →
      fetchGo k fetcher retries retryDelay a r =
        ⟨.ok v, count + 1,
         (List.range' a count).map (fun i => retryDelay * 2 ^ i),
         (List.range' a count).map (fun i =>
           Event.retry k (i + 1) retries (retryDelay * 2 ^ i) (es i))⟩ := by
  induction count with
  | zero =>
    intro a r _ _ hok
    rw [Nat.add_zero] at hok
    unfold fetchGo
    rw [hok]
    rfl
  | succ n ih =>
    intro a r hle hfail hok
    obtain ⟨r', rfl⟩ : ∃ r', r = r' + 1 := ⟨r - 1, by omega⟩
    have h0 : fetcher a = .error (es a) := by
      have h := hfail 0 (by omega)
      simpa using h
    have hrest := ih (a + 1) r' (by omega)
      (fun i hi => by
        have h := hfail (i + 1) (by omega)
        have harg : a + (i + 1) = a + 1 + i := by omega
        rw [harg] at h
        exact h)
      (by
        have harg : a + 1 + n = a + (n + 1) := by omega
        rw [harg]
        exact hok)
    unfold fetchGo
    rw [h0]
    simp only [hrest, List.range', List.map]

theorem fetchGo_fail (k : Key) (fetcher : Nat → Except Err Val) (es : Nat → Err)
    (retries retryDelay : Nat) (count : Nat) :
    ∀ a : Nat,
      (∀ i, i ≤ count → fetcher (a + i) = .error (es (a + i))) →
      fetchGo k fetcher retries retryDelay a count =
        ⟨.error (es (a + count)), count + 1,
         (List.range' a count).map (fun i => retryDelay * 2 ^ i),
         (List.range' a count).map (fun i =>
           Event.retry k (i + 1) retries (retryDelay * 2 ^ i) (es i))⟩ := by
  induction count with
  | zero =>
    intro a hfail
    have h0 : fetcher a = .error (es a) := by simpa using hfail 0 (by omega)
    unfold fetchGo
    rw [h0]
    simp
  | succ n ih =>
    intro a hfail
    have h0 : fetcher a = .error (es a) := by simpa using hfail 0 (by omega)
    have hrest := ih (a + 1)
      (fun i hi => by
        have h := hfail (i + 1) (by omega)
        have harg : a + (i + 1) = a + 1 + i := by omega
        rw [harg] at h
        exact h)
    unfold fetchGo
    rw [h0]
    simp only [hrest, List.range', List.map]
    have harg : a + 1 + n = a + (n + 1) := by omega
    rw [harg]

theorem query_eq_none (s : QState) (k : Key) (now st ttl : Nat)
    (h : getEntry s k = none) :
    query s k now st ttl =
      (.awaitP s.nextP,
       { cache := setA k ⟨.undef, 0, 0, some s.nextP, none⟩ s.cache
         pending := (s.nextP, ⟨k, none, st, ttl⟩) :: s.pending
         nextP := s.nextP + 1
         events := s.events ++ [.fetch k false false] }) := by
  simp only [query, h]

theorem query_eq_hit (s : QState) (k : Key) (now st ttl : Nat) (e : Entry)
    (h : getEntry s k = some e) (hf : now < e.staleAt) :
    query s k now st ttl =
      (.hit e.data, { s with events := s.events ++ [.hit k e.data] }) := by
  simp only [query, h]
  rw [if_pos hf]

theorem query_eq_dedup (s : QState) (k : Key) (now st ttl : Nat) (e : Entry) (p : Nat)
    (h : getEntry s k = some e) (hp : e.promise = some p) (hs : e.staleAt ≤ now) :
    query s k now st ttl = (.dedup p, s) := by
  simp only [query, h]
  rw [if_neg (by omega), hp]

theorem query_eq_stale (s : QState) (k : Key) (now st ttl : Nat) (e : Entry)
    (h : getEntry s k = some e) (hp : e.promise = none) (hs : e.staleAt ≤ now)
    (he : now < e.expiry) :
    query s k now st ttl =
      (.staleReturn e.data s.nextP,
       { cache := setA k { e with promise := some s.nextP } s.cache
         pending := (s.nextP, ⟨k, some e, st, ttl⟩) :: s.pending
         nextP := s.nextP + 1
         events := s.events ++ [.fetch k true true] }) := by
  simp only [query, h]
  rw [if_neg (by omega), hp]
  simp [he]

theorem query_eq_miss (s : QState) (k : Key) (now st ttl : Nat) (e : Entry)
    (h : getEntry s k = some e) (hp : e.promise = none) (hs : e.staleAt ≤ now)
    (he : e.expiry ≤ now) :
    query s k now st ttl =
      (.awaitP s.nextP,
       { cache := setA k { e with promise := some s.nextP } s.cache
         pending := (s.nextP, ⟨k, some e, st, ttl⟩) :: s.pending
         nextP := s.nextP + 1
         events := s.events ++ [.fetch k false true] }) := by
  simp only [query, h]
  rw [if_neg (by omega), hp]
  simp [Nat.not_lt.mpr he]

theorem settle_eq_ok (c : List (Key × Entry)) (pnd : List (Nat × Pending)) (np : Nat)
    (evs : List Event) (p : Nat) (pd : Pending) (v : Val) (t' : Nat) :
    settle ⟨c, (p, pd) :: pnd, np, evs⟩ p (.ok v) t' =
      (.ok v,
       ⟨setA pd.key ⟨.val v, t' + pd.staleTime, t' + pd.ttl, none, none⟩ c,
        pnd.filter (fun x => x.1 ≠ p), np, evs ++ [.success pd.key (.val v)]⟩) := by
  simp [settle, lookupP, List.filter]

theorem settle_eq_error (c : List (Key × Entry)) (pnd : List (Nat × Pending)) (np : Nat)
    (evs : List Event) (p : Nat) (pd : Pending) (err : Err) (t' : Nat) :
    settle ⟨c, (p, pd) :: pnd, np, evs⟩ p (.error err) t' =
      (.error err,
       ⟨setA pd.key ⟨snapData pd.snapshot, snapStale pd.snapshot,
          snapExpiry pd.snapshot, none, some err⟩ c,
        pnd.filter (fun x => x.1 ≠ p), np,
        evs ++ [.error pd.key err (snapData pd.snapshot)]⟩) := by
  simp [settle, lookupP, List.filter]

theorem simulQueries_dedup (s : QState) (k : Key) (now st ttl : Nat) (e : Entry)
    (p : Nat) (h : getEntry s k = some e) (hp : e.promise = some p)
    (hs : e.staleAt ≤ now) :
    ∀ n, simulQueries s k now st ttl n = (List.replicate n (.dedup p), s) := by
  intro n
  induction n with
  | zero => rfl
  | succ m ih =>
    simp only [simulQueries, query_eq_dedup s k now st ttl e p h hp hs, ih,
      List.replicate_succ]

/-! ## Claim theorems -/

/-- C1. Single-flight deduplication: (i) while an entry holds an
in-flight promise (and its recorded `staleAt` has passed, as it has
whenever `query` stored the promise), any further `query` call returns
that same promise and leaves the state — in particular the pending-fetch
table — untouched; (ii) once a `query` call at time `t0` has started and
stored fetch promise `p`, every later `query` call for the key returns
`p` without starting anything; (iii) under `n + 1` simultaneous `query`
calls for an uncached key, the first caller starts the single fetch with
promise id `s.nextP` and awaits it, the other `n` callers all receive
that same promise, exactly one pending fetch and one "fetch"
notification are created, and every caller resolves with that promise's
settlement; (iv) one fetch run with a first-attempt-success fetcher
invokes the fetcher exactly once. -/
theorem query_single_flight_dedup (s : QState) (k : Key) (st ttl : Nat) :
    (∀ (e : Entry) (p now : Nat), getEntry s k = some e → e.promise = some p →
      e.staleAt ≤ now → query s k now st ttl = (.dedup p, s)) ∧
    (∀ (t0 t : Nat) (o : Outcome) (s' : QState) (p : Nat),
      query s k t0 st ttl = (o, s') →
      (o = .awaitP p ∨ ∃ d, o = .staleReturn d p) → t0 ≤ t →
      query s' k t st ttl = (.dedup p, s')) ∧
    (∀ (now n : Nat), getEntry s k = none →
      simulQueries s k now st ttl (n + 1) =
        (Outcome.awaitP s.nextP :: List.replicate n (.dedup s.nextP),
         { cache := setA k ⟨.undef, 0, 0, some s.nextP, none⟩ s.cache
           pending := (s.nextP, ⟨k, none, st, ttl⟩) :: s.pending
           nextP := s.nextP + 1
           events := s.events ++ [.fetch k false false] })) ∧
    (∀ (f : Nat → Except Err Val) (v : Val) (r d : Nat),
      f 0 = .ok v → (fetchWithRetry k f r d).calls = 1) := by
  refine ⟨fun e p now h hp hs => query_eq_dedup s k now st ttl e p h hp hs,
    ?_, ?_, ?_⟩
  · intro t0 t o s' p hq ho ht
    rcases hget : getEntry s k with _ | e
    · rw [query_eq_none s k t0 st ttl hget] at hq
      obtain ⟨rfl, rfl⟩ := Prod.mk.injEq .. ▸ hq
      have hp : s.nextP = p := by
        rcases ho with h1 | ⟨d, h1⟩
        · exact Outcome.awaitP.inj h1
        · exact absurd h1 (by simp)
      subst hp
      exact query_eq_dedup _ k t st ttl ⟨.undef, 0, 0, some s.nextP, none⟩ s.nextP
        (by simp [getEntry]) rfl (Nat.zero_le t)
    · by_cases hst : t0 < e.staleAt
      · rw [query_eq_hit s k t0 st ttl e hget hst] at hq
        obtain ⟨rfl, rfl⟩ := Prod.mk.injEq .. ▸ hq
        rcases ho with h1 | ⟨d, h1⟩ <;> exact absurd h1 (by simp)
      · rcases hpr : e.promise with _ | p'
        · by_cases hex : t0 < e.expiry
          · rw [query_eq_stale s k t0 st ttl e hget hpr (by omega) hex] at hq
            obtain ⟨rfl, rfl⟩ := Prod.mk.injEq .. ▸ hq
            have hp : s.nextP = p := by
              rcases ho with h1 | ⟨d, h1⟩
              · exact absurd h1 (by simp)
              · exact (Outcome.staleReturn.inj h1).2
            subst hp
            exact query_eq_dedup _ k t st ttl { e with promise := some s.nextP }
              s.nextP (by simp [getEntry]) rfl (by show e.staleAt ≤ t; omega)
          · rw [query_eq_miss s k t0 st ttl e hget hpr (by omega) (by omega)] at hq
            obtain ⟨rfl, rfl⟩ := Prod.mk.injEq .. ▸ hq
            have hp : s.nextP = p := by
              rcases ho with h1 | ⟨d, h1⟩
              · exact Outcome.awaitP.inj h1
              · exact absurd h1 (by simp)
            subst hp
            exact query_eq_dedup _ k t st ttl { e with promise := some s.nextP }
              s.nextP (by simp [getEntry]) rfl (by show e.staleAt ≤ t; omega)
        · rw [query_eq_dedup s k t0 st ttl e p' hget hpr (by omega)] at hq
          obtain ⟨rfl, rfl⟩ := Prod.mk.injEq .. ▸ hq
          rcases ho with h1 | ⟨d, h1⟩ <;> exact absurd h1 (by simp)
  · intro now n hget
    simp only [simulQueries, query_eq_none s k now st ttl hget]
    rw [simulQueries_dedup _ k now st ttl ⟨.undef, 0, 0, some s.nextP, none⟩
      s.nextP (by simp [getEntry]) rfl (Nat.zero_le now) n]
  · intro f v r d hf
    rw [fetchWithRetry]
    unfold fetchGo
    rw [hf]

/-- Witness for C1: three simultaneous `query` calls for an uncached key
share the single fetch promise `0`; one pending fetch and one "fetch"
notification result. -/
theorem query_single_flight_dedup_witness :
    simulQueries ⟨[], [], 0, []⟩ "users" 5 100 200 3 =
      ([.awaitP 0, .dedup 0, .dedup 0],
       ⟨[("users", ⟨.undef, 0, 0, some 0, none⟩)],
        [(0, ⟨"users", none, 100, 200⟩)], 1, [.fetch "users" false false]⟩) := by
  have h := (query_single_flight_dedup ⟨[], [], 0, []⟩ "users" 100 200).2.2.1 5 2 rfl
  rw [h]
  decide

/-- C2. Fresh hit and stale-while-revalidate: a `query` call strictly
before the entry's `staleAt` returns the cached data and changes neither
the cache nor the pending-fetch table (no fetcher invocation, only a
"hit" notification); a `query` call at or after `staleAt` but strictly
before `expiry` (with no fetch already in flight) returns the old cached
data immediately while starting exactly one background fetch, and when
that fetch settles successfully at time `t'` with value `v` the entry
becomes `{data := v, staleAt := t' + staleTime, expiry := t' + ttl,
promise := null, error := null}`. -/
theorem query_fresh_hit_swr (s : QState) (k : Key) (st ttl : Nat) :
    (∀ (e : Entry) (now : Nat), getEntry s k = some e → now < e.staleAt →
      query s k now st ttl =
        (.hit e.data, { s with events := s.events ++ [.hit k e.data] })) ∧
    (∀ (e : Entry) (now : Nat), getEntry s k = some e → e.promise = none →
      e.staleAt ≤ now → now < e.expiry →
      query s k now st ttl =
        (.staleReturn e.data s.nextP,
         { cache := setA k { e with promise := some s.nextP } s.cache
           pending := (s.nextP, ⟨k, some e, st, ttl⟩) :: s.pending
           nextP := s.nextP + 1
           events := s.events ++ [.fetch k true true] }) ∧
      ∀ (v : Val) (t' : Nat),
        settle (query s k now st ttl).2 s.nextP (.ok v) t' =
          (.ok v,
           { cache := setA k ⟨.val v, t' + st, t' + ttl, none, none⟩ s.cache
             pending := s.pending.filter (fun x => x.1 ≠ s.nextP)
             nextP := s.nextP + 1
             events := s.events ++ [.fetch k true true, .success k (.val v)] })) := by
  refine ⟨fun e now h hf => query_eq_hit s k now st ttl e h hf, ?_⟩
  intro e now h hp hs he
  refine ⟨query_eq_stale s k now st ttl e h hp hs he, ?_⟩
  intro v t'
  rw [query_eq_stale s k now st ttl e h hp hs he]
  rw [settle_eq_ok]
  rw [setA_setA]
  simp [List.append_assoc]

/-- Witness for C2: a stale-but-not-expired entry (`staleAt = 10`,
`expiry = 50`, queried at `now = 20`) is returned immediately while one
background fetch starts, and its successful settlement at `t' = 25` with
value `9` installs `{data := 9, staleAt := 125, expiry := 225}`. -/
theorem query_fresh_hit_swr_witness :
    query ⟨[("u", ⟨.val 3, 10, 50, none, none⟩)], [], 0, []⟩ "u" 20 100 200 =
      (.staleReturn (.val 3) 0,
       ⟨[("u", ⟨.val 3, 10, 50, some 0, none⟩)],
        [(0, ⟨"u", some ⟨.val 3, 10, 50, none, none⟩, 100, 200⟩)], 1,
        [.fetch "u" true true]⟩) ∧
    settle (query ⟨[("u", ⟨.val 3, 10, 50, none, none⟩)], [], 0, []⟩
        "u" 20 100 200).2 0 (.ok 9) 25 =
      (.ok 9,
       ⟨[("u", ⟨.val 9, 125, 225, none, none⟩)], [], 1,
        [.fetch "u" true true, .success "u" (.val 9)]⟩) := by
  have h := (query_fresh_hit_swr ⟨[("u", ⟨.val 3, 10, 50, none, none⟩)], [], 0, []⟩
    "u" 100 200).2 ⟨.val 3, 10, 50, none, none⟩ 20 rfl rfl (by decide) (by decide)
  refine ⟨by rw [h.1]; decide, ?_⟩
  rw [h.2 9 25]
  decide

/-- C4. Failure path: when the retry-wrapped fetch for a key ultimately
fails, the entry is replaced with the previous snapshot's data (or
`null`), the previous `staleAt` / `expiry` (or `0`), `promise := null`
and the failure as `error`; an "error" notification carrying the error
and the previous (stale) data is emitted; and the settled result
delivered to a caller awaiting the query promise is the rejection with
that error. Stated through the full pipeline: a `query` that found no
usable stale data (expired entry, or no entry) leaves its caller
awaiting the fetch, and the failing settlement produces exactly the
state above. -/
theorem query_failure_path (s : QState) (k : Key) (st ttl : Nat) (err : Err) :
    (∀ (e : Entry) (now t' : Nat), getEntry s k = some e → e.promise = none →
      e.staleAt ≤ now → e.expiry ≤ now →
      (query s k now st ttl).1 = .awaitP s.nextP ∧
      settle (query s k now st ttl).2 s.nextP (.error err) t' =
        (.error err,
         { cache := setA k ⟨e.data.orNull, e.staleAt, e.expiry, none, some err⟩ s.cache
           pending := s.pending.filter (fun x => x.1 ≠ s.nextP)
           nextP := s.nextP + 1
           events := s.events ++ [.fetch k false true, .error k err e.data.orNull] })) ∧
    (∀ (now t' : Nat), getEntry s k = none →
      (query s k now st ttl).1 = .awaitP s.nextP ∧
      settle (query s k now st ttl).2 s.nextP (.error err) t' =
        (.error err,
         { cache := setA k ⟨.null, 0, 0, none, some err⟩ s.cache
           pending := s.pending.filter (fun x => x.1 ≠ s.nextP)
           nextP := s.nextP + 1
           events := s.events ++ [.fetch k false false, .error k err .null] })) := by
  constructor
  · intro e now t' h hp hs he
    rw [query_eq_miss s k now st ttl e h hp hs he]
    refine ⟨rfl, ?_⟩
    rw [settle_eq_error]
    rw [setA_setA]
    simp [snapData, snapStale, snapExpiry, List.append_assoc]
  · intro now t' h
    rw [query_eq_none s k now st ttl h]
    refine ⟨rfl, ?_⟩
    rw [settle_eq_error]
    rw [setA_setA]
    simp [snapData, snapStale, snapExpiry, JData.orNull, List.append_assoc]

theorem lookupA_eq_none_of_not_mem {α : Type} (k : Key) (l : List (Key × α))
    (h : k ∉ l.map Prod.fst) : lookupA k l = none := by
  induction l with
  | nil => rfl
  | cons hd tl ih =>
    obtain ⟨k', v⟩ := hd
    simp only [List.map_cons, List.mem_cons] at h
    push_neg at h
    simp [lookupA, h.1, ih h.2]

theorem lookupA_mem {α : Type} (k : Key) (v : α) (l : List (Key × α))
    (h : lookupA k l = some v) : (k, v) ∈ l := by
  induction l with
  | nil => simp [lookupA] at h
  | cons hd tl ih =>
    obtain ⟨k', v'⟩ := hd
    by_cases hk : k = k'
    · subst hk
      rw [lookupA_cons, if_pos rfl] at h
      injection h with h
      subst h
      exact List.mem_cons_self ..
    · simp only [lookupA, if_neg hk] at h
      exact List.mem_cons_of_mem _ (ih h)

theorem loadFromStorage_lookup (t : Nat) (stored : List (Key × StoredEntry)) :
    ∀ (c : List (Key × Entry)) (k : Key), (stored.map Prod.fst).Nodup →
      lookupA k (loadFromStorage c stored t) =
        match lookupA k stored with
        | some st =>
          if t < st.expiry then some ⟨st.data, st.staleAt, st.expiry, none, none⟩
          else lookupA k c
        | none => lookupA k c := by
  induction stored with
  | nil => intro c k _; rfl
  | cons hd tl ih =>
    intro c k hnd
    obtain ⟨k0, st0⟩ := hd
    simp only [List.map_cons, List.nodup_cons] at hnd
    have hstep : loadFromStorage c ((k0, st0) :: tl) t =
        loadFromStorage
          (if t < st0.expiry then setA k0 ⟨st0.data, st0.staleAt, st0.expiry, none, none⟩ c
           else c) tl t := by
      simp only [loadFromStorage, List.foldl_cons]
    rw [hstep, ih _ k hnd.2]
    by_cases hk : k = k0
    · subst hk
      have htl : lookupA k tl = none := lookupA_eq_none_of_not_mem k tl hnd.1
      rw [htl, lookupA_cons, if_pos rfl]
      by_cases ht : t < st0.expiry
      · simp [ht]
      · simp [ht]
    · have hc : lookupA k
          (if t < st0.expiry then setA k0 ⟨st0.data, st0.staleAt, st0.expiry, none, none⟩ c
           else c) = lookupA k c := by
        by_cases ht : t < st0.expiry
        · simp [ht, lookupA_setA_other _ _ _ _ hk]
        · simp [ht]
      rw [hc, lookupA_cons, if_neg hk]

theorem saveToStorage_keys (pks : Option (List Key)) (cache : List (Key × Entry)) :
    ((saveToStorage pks cache).map Prod.fst).Sublist (cache.map Prod.fst) := by
  induction cache with
  | nil => simp [saveToStorage]
  | cons hd tl ih =>
    obtain ⟨k, e⟩ := hd
    rcases pks with _ | pl
    · rw [saveToStorage]
      by_cases hde : e.data = .undef
      · simp only [if_pos hde]
        exact ih.trans (List.sublist_cons_self ..)
      · simp only [if_neg hde]
        simpa using ih.cons₂ k
    · rw [saveToStorage]
      by_cases hde : e.data = .undef
      · simp only [if_pos hde]
        exact ih.trans (List.sublist_cons_self ..)
      · simp only [if_neg hde]
        by_cases hpk : pl.any (fun pk => k.startsWith pk)
        · simp only [if_pos hpk]
          simpa using ih.cons₂ k
        · simp only [if_neg hpk]
          exact ih.trans (List.sublist_cons_self ..)

/-- C5. Persistence round-trip: saving the cache and loading the result
into an empty store at time `t` installs, for exactly those saved keys
whose `expiry` is still in the future at load time, an entry with the
same `data`, `staleAt` and `expiry` and with `promise = null` (and no
error recorded), and installs nothing for saved keys whose expiry has
passed or keys that were not saved. -/
theorem persistence_roundtrip (pks : Option (List Key)) (cache : List (Key × Entry))
    (t : Nat) (k : Key) (hnd : (cache.map Prod.fst).Nodup) :
    lookupA k (loadFromStorage [] (saveToStorage pks cache) t) =
      match lookupA k (saveToStorage pks cache) with
      | some st =>
        if t < st.expiry then some ⟨st.data, st.staleAt, st.expiry, none, none⟩
        else none
      | none => none := by
  have hs : ((saveToStorage pks cache).map Prod.fst).Nodup :=
    hnd.sublist (saveToStorage_keys pks cache)
  rw [loadFromStorage_lookup t _ [] k hs]
  rcases lookupA k (saveToStorage pks cache) with _ | st
  · rfl
  · rfl

/-- Witness for C5: a two-entry cache saved and reloaded at `t = 4`
restores the unexpired key `"a"` with identical data and timestamps and a
cleared promise, and omits the expired key `"c"`. -/
theorem persistence_roundtrip_witness :
    lookupA "a" (loadFromStorage []
        (saveToStorage none
          [("a", ⟨.val 1, 5, 10, none, none⟩), ("c", ⟨.null, 2, 3, none, some "e"⟩)])
        4) = some ⟨.val 1, 5, 10, none, none⟩ ∧
    lookupA "c" (loadFromStorage []
        (saveToStorage none
          [("a", ⟨.val 1, 5, 10, none, none⟩), ("c", ⟨.null, 2, 3, none, some "e"⟩)])
        4) = none := by
  constructor
  · rw [persistence_roundtrip none
      [("a", ⟨.val 1, 5, 10, none, none⟩), ("c", ⟨.null, 2, 3, none, some "e"⟩)]
      4 "a" (by decide)]
    decide
  · rw [persistence_roundtrip none
      [("a", ⟨.val 1, 5, 10, none, none⟩), ("c", ⟨.null, 2, 3, none, some "e"⟩)]
      4 "c" (by decide)]
    decide

/-- C6. Persist-all default: with no `persistedKeys` allow-list
configured (`persistedKeys = null`), `saveToStorage` serializes every
cache entry whose data is defined — and nothing else — into the stored
blob. -/
theorem saveToStorage_persist_all_default (cache : List (Key × Entry)) :
    (∀ (k : Key) (e : Entry), (k, e) ∈ cache → e.data ≠ .undef →
      (k, ⟨e.data, e.staleAt, e.expiry⟩) ∈ saveToStorage none cache) ∧
    (∀ x, x ∈ saveToStorage none cache →
      ∃ e : Entry, (x.1, e) ∈ cache ∧ e.data ≠ .undef ∧
        x.2 = ⟨e.data, e.staleAt, e.expiry⟩) := by
  constructor
  · intro k e hmem hdef
    induction cache with
    | nil => simp at hmem
    | cons hd tl ih =>
      obtain ⟨k', e'⟩ := hd
      rw [saveToStorage]
      rcases List.mem_cons.mp hmem with heq | htl
      · obtain ⟨rfl, rfl⟩ := Prod.mk.injEq .. ▸ heq
        simp [if_neg hdef]
      · by_cases hd' : e'.data = .undef
        · simpa [if_pos hd'] using ih htl
        · simpa [if_neg hd'] using Or.inr (ih htl)
  · intro x hx
    induction cache with
    | nil => simp [saveToStorage] at hx
    | cons hd tl ih =>
      obtain ⟨k', e'⟩ := hd
      rw [saveToStorage] at hx
      by_cases hd' : e'.data = .undef
      · rw [if_pos hd'] at hx
        obtain ⟨e, he1, he2, he3⟩ := ih hx
        exact ⟨e, List.mem_cons_of_mem _ he1, he2, he3⟩
      · rw [if_neg hd'] at hx
        rcases List.mem_cons.mp hx with heq | htl

        · exact ⟨e', by rw [heq]; exact List.mem_cons_self .., hd', by rw [heq]⟩
        · obtain ⟨e, he1, he2, he3⟩ := ih htl
          exact ⟨e, List.mem_cons_of_mem _ he1, he2, he3⟩

/-- Witness for C6: with `persistedKeys = null`, an entry with defined
(`null`-valued) data is persisted. -/
theorem saveToStorage_persist_all_default_witness :
    ("c", (⟨.null, 2, 3⟩ : StoredEntry)) ∈
      saveToStorage none
        [("a", ⟨.val 1, 5, 10, none, none⟩), ("c", ⟨.null, 2, 3, none, some "e"⟩)] := by
  exact (saveToStorage_persist_all_default
      [("a", ⟨.val 1, 5, 10, none, none⟩), ("c", ⟨.null, 2, 3, none, some "e"⟩)]).1
    "c" ⟨.null, 2, 3, none, some "e"⟩ (by decide) (by decide)

/-- Witness for C4: an expired entry with data `3` is queried at
`now = 60`; the fetch fails with "boom" at `t' = 70`; the entry keeps
data `3` and its old timestamps, records the error, and the caller's
promise rejects with "boom". -/
theorem query_failure_path_witness :
    (query ⟨[("u", ⟨.val 3, 10, 50, none, none⟩)], [], 0, []⟩ "u" 60 100 200).1 =
      .awaitP 0 ∧
    settle (query ⟨[("u", ⟨.val 3, 10, 50, none, none⟩)], [], 0, []⟩
        "u" 60 100 200).2 0 (.error "boom") 70 =
      (.error "boom",
       ⟨[("u", ⟨.val 3, 10, 50, none, some "boom"⟩)], [], 1,
        [.fetch "u" false true, .error "u" "boom" (.val 3)]⟩) := by
  have h := (query_failure_path ⟨[("u", ⟨.val 3, 10, 50, none, none⟩)], [], 0, []⟩
    "u" 100 200 "boom").1 ⟨.val 3, 10, 50, none, none⟩ 60 70 rfl rfl
    (by decide) (by decide)
  refine ⟨by rw [h.1], ?_⟩
  rw [h.2]
  decide

theorem gcRun_eq (evt : EvtState) (now : Nat) (cache : List (Key × Entry)) :
    gcRun evt now cache =
      (cache.filter
        (fun x => !(decide (now > x.2.expiry) && !evtHas evt (successTopic x.1))),
       (cache.filter
         (fun x => decide (now > x.2.expiry) && !evtHas evt (successTopic x.1))).map
         Prod.fst) := by
  induction cache with
  | nil => rfl
  | cons hd tl ih =>
    obtain ⟨k, e⟩ := hd
    rw [gcRun, ih]
    by_cases hc : now > e.expiry ∧ evtHas evt (successTopic k) = false
    · have hb : (decide (now > e.expiry) && !evtHas evt (successTopic k)) = true := by
        simp [hc.1, hc.2]
      have hncond : ¬(now ≤ e.expiry ∨ evtHas evt (successTopic k) = true) := by
        rintro (h | h)
        · omega
        · rw [hc.2] at h
          exact Bool.false_ne_true h
      simp only [hb, List.filter_cons]
      simp [hncond, hc.1, hc.2]
    · have hb : (decide (now > e.expiry) && !evtHas evt (successTopic k)) = false := by
        by_cases hh : evtHas evt (successTopic k) = true
        · simp [hh]
        · have hf : evtHas evt (successTopic k) = false := by
            revert hh
            cases evtHas evt (successTopic k) <;> simp
          have hng : ¬ now > e.expiry := fun hgt => hc ⟨hgt, hf⟩
          simp [hng]
      have hcond : now ≤ e.expiry ∨ evtHas evt (successTopic k) = true := by
        by_cases hh : evtHas evt (successTopic k) = true
        · exact Or.inr hh
        · have hf : evtHas evt (successTopic k) = false := by
            revert hh
            cases evtHas evt (successTopic k) <;> simp
          have hng : ¬ now > e.expiry := fun hgt => hc ⟨hgt, hf⟩
          exact Or.inl (by omega)
      simp only [hb, List.filter_cons]
      simp [hcond]

/-- C8. Garbage collection: `gc` deletes exactly those entries whose
`expiry` is strictly in the past and whose key has no active listener on
its `query:<key>:success` topic — every other entry is kept unchanged,
in order — and it produces one `query:gc` notification listing the
collected keys precisely when the collected set is non-empty. -/
theorem gc_collects_expired_unsubscribed (cache : List (Key × Entry))
    (evt : EvtState) (now : Nat) :
    (gc cache evt now).1 =
      cache.filter
        (fun x => !(decide (now > x.2.expiry) && !evtHas evt (successTopic x.1))) ∧
    (gc cache evt now).2.1 =
      (cache.filter
        (fun x => decide (now > x.2.expiry) && !evtHas evt (successTopic x.1))).map
        Prod.fst ∧
    (gc cache evt now).2.2 =
      (if (gc cache evt now).2.1 = [] then []
       else [.gcEvent (gc cache evt now).2.1]) := by
  refine ⟨?_, ?_, ?_⟩
  · rw [gc, gcRun_eq]
  · rw [gc, gcRun_eq]
  · rw [gc]
    rcases h : (gcRun evt now cache).2 with _ | ⟨hd, tl⟩
    · simp [h]
    · simp [h]

theorem qtopic_inj (k : Key) (a b : String)
    (h : "query:" ++ k ++ a = "query:" ++ k ++ b) : a = b := by
  have hd := congrArg String.data h
  rw [String.data_append, String.data_append] at hd
  exact String.ext (List.append_cancel_left hd)

theorem qtopic_ne (k : Key) (a b : String) (hab : ¬ a = b) :
    ("query:" ++ k ++ a) ≠ ("query:" ++ k ++ b) :=
  fun h => hab (qtopic_inj k a b h)

theorem lookupA_evtSub_self (t : Topic) (h : Handler) (s : EvtState) :
    lookupA t (evtSub t h s) =
      some (match lookupA t s with
            | some hs => if h ∈ hs then hs else hs ++ [h]
            | none => [h]) := by
  induction s with
  | nil => simp [evtSub, lookupA]
  | cons hd tl ih =>
    obtain ⟨t', hs⟩ := hd
    by_cases ht : t = t'
    · subst ht
      rw [evtSub, if_pos rfl, lookupA_cons, if_pos rfl, lookupA_cons, if_pos rfl]
    · rw [evtSub, if_neg ht, lookupA_cons, if_neg ht, lookupA_cons, if_neg ht]
      exact ih

theorem lookupA_evtSub_other (t2 t : Topic) (h : Handler) (s : EvtState)
    (hne : t2 ≠ t) : lookupA t2 (evtSub t h s) = lookupA t2 s := by
  induction s with
  | nil => simp [evtSub, lookupA, hne]
  | cons hd tl ih =>
    obtain ⟨t', hs⟩ := hd
    by_cases ht : t = t'
    · subst ht
      rw [evtSub, if_pos rfl, lookupA_cons, lookupA_cons, if_neg hne, if_neg hne]
    · rw [evtSub, if_neg ht, lookupA_cons, lookupA_cons, ih]

theorem lookupA_evtUnsub_self (t : Topic) (h : Handler) (s : EvtState) :
    lookupA t (evtUnsub t h s) = (lookupA t s).map (fun hs => hs.erase h) := by
  induction s with
  | nil => simp [evtUnsub, lookupA]
  | cons hd tl ih =>
    obtain ⟨t', hs⟩ := hd
    by_cases ht : t = t'
    · subst ht
      rw [evtUnsub, if_pos rfl, lookupA_cons, if_pos rfl, lookupA_cons, if_pos rfl]
      rfl
    · rw [evtUnsub, if_neg ht, lookupA_cons, if_neg ht, lookupA_cons, if_neg ht]
      exact ih

theorem lookupA_evtUnsub_other (t2 t : Topic) (h : Handler) (s : EvtState)
    (hne : t2 ≠ t) : lookupA t2 (evtUnsub t h s) = lookupA t2 s := by
  induction s with
  | nil => simp [evtUnsub, lookupA]
  | cons hd tl ih =>
    obtain ⟨t', hs⟩ := hd
    by_cases ht : t = t'
    · subst ht
      rw [evtUnsub, if_pos rfl, lookupA_cons, lookupA_cons, if_neg hne, if_neg hne]
    · rw [evtUnsub, if_neg ht, lookupA_cons, lookupA_cons, ih]

theorem callbackCalls_nil (k : Key) (arg : Option Entry) (hs : List Handler)
    (h : ∀ x ∈ hs, x ≠ Handler.mainH k ∧ x ≠ Handler.invalH k) :
    callbackCalls hs k arg = [] := by
  induction hs with
  | nil => rfl
  | cons hd tl ih =>
    have hhd := h hd (List.mem_cons_self ..)
    have htl := ih fun x hx => h x (List.mem_cons_of_mem _ hx)
    rcases hd with k' | k' | n
    · have hne : ¬ k' = k := fun he => hhd.1 (by rw [he])
      simp [callbackCalls, List.filterMap_cons, hne]
      simpa [callbackCalls] using htl
    · have hne : ¬ k' = k := fun he => hhd.2 (by rw [he])
      simp [callbackCalls, List.filterMap_cons, hne]
      simpa [callbackCalls] using htl
    · simp [callbackCalls, List.filterMap_cons]
      simpa [callbackCalls] using htl

theorem eraseSelf_append (hs : List Handler) (h : Handler) (hnm : h ∉ hs) :
    (if h ∈ hs then hs else hs ++ [h]).erase h = hs := by
  rw [if_neg hnm, List.erase_append_right _ hnm, List.erase_cons_head,
    List.append_nil]

theorem lookupA_unsub_sub_success (evt : EvtState) (k : Key) :
    lookupA (successTopic k) (unsubscribe (subscribe evt k) k) =
      some ((match lookupA (successTopic k) evt with
             | some hs => if Handler.mainH k ∈ hs then hs else hs ++ [Handler.mainH k]
             | none => [Handler.mainH k]).erase (Handler.mainH k)) := by
  simp only [unsubscribe, subscribe, successTopic, errorTopic, mutateTopic, setTopic,
    invalidateTopic]
  rw [lookupA_evtUnsub_other _ _ _ _ (qtopic_ne k ":success" ":invalidate" (by decide)),
    lookupA_evtUnsub_other _ _ _ _ (qtopic_ne k ":success" ":set" (by decide)),
    lookupA_evtUnsub_other _ _ _ _ (qtopic_ne k ":success" ":mutate" (by decide)),
    lookupA_evtUnsub_other _ _ _ _ (qtopic_ne k ":success" ":error" (by decide)),
    lookupA_evtUnsub_self,
    lookupA_evtSub_other _ _ _ _ (qtopic_ne k ":success" ":invalidate" (by decide)),
    lookupA_evtSub_other _ _ _ _ (qtopic_ne k ":success" ":set" (by decide)),
    lookupA_evtSub_other _ _ _ _ (qtopic_ne k ":success" ":mutate" (by decide)),
    lookupA_evtSub_other _ _ _ _ (qtopic_ne k ":success" ":error" (by decide)),
    lookupA_evtSub_self]
  rfl

theorem lookupA_unsub_sub_error (evt : EvtState) (k : Key) :
    lookupA (errorTopic k) (unsubscribe (subscribe evt k) k) =
      some ((match lookupA (errorTopic k) evt with
             | some hs => if Handler.mainH k ∈ hs then hs else hs ++ [Handler.mainH k]
             | none => [Handler.mainH k]).erase (Handler.mainH k)) := by
  simp only [unsubscribe, subscribe, successTopic, errorTopic, mutateTopic, setTopic,
    invalidateTopic]
  rw [lookupA_evtUnsub_other _ _ _ _ (qtopic_ne k ":error" ":invalidate" (by decide)),
    lookupA_evtUnsub_other _ _ _ _ (qtopic_ne k ":error" ":set" (by decide)),
    lookupA_evtUnsub_other _ _ _ _ (qtopic_ne k ":error" ":mutate" (by decide)),
    lookupA_evtUnsub_self,
    lookupA_evtUnsub_other _ _ _ _ (qtopic_ne k ":error" ":success" (by decide)),
    lookupA_evtSub_other _ _ _ _ (qtopic_ne k ":error" ":invalidate" (by decide)),
    lookupA_evtSub_other _ _ _ _ (qtopic_ne k ":error" ":set" (by decide)),
    lookupA_evtSub_other _ _ _ _ (qtopic_ne k ":error" ":mutate" (by decide)),
    lookupA_evtSub_self,
    lookupA_evtSub_other _ _ _ _ (qtopic_ne k ":error" ":success" (by decide))]
  rfl

theorem lookupA_unsub_sub_mutate (evt : EvtState) (k : Key) :
    lookupA (mutateTopic k) (unsubscribe (subscribe evt k) k) =
      some ((match lookupA (mutateTopic k) evt with
             | some hs => if Handler.mainH k ∈ hs then hs else hs ++ [Handler.mainH k]
             | none => [Handler.mainH k]).erase (Handler.mainH k)) := by
  simp only [unsubscribe, subscribe, successTopic, errorTopic, mutateTopic, setTopic,
    invalidateTopic]
  rw [lookupA_evtUnsub_other _ _ _ _ (qtopic_ne k ":mutate" ":invalidate" (by decide)),
    lookupA_evtUnsub_other _ _ _ _ (qtopic_ne k ":mutate" ":set" (by decide)),
    lookupA_evtUnsub_self,
    lookupA_evtUnsub_other _ _ _ _ (qtopic_ne k ":mutate" ":error" (by decide)),
    lookupA_evtUnsub_other _ _ _ _ (qtopic_ne k ":mutate" ":success" (by decide)),
    lookupA_evtSub_other _ _ _ _ (qtopic_ne k ":mutate" ":invalidate" (by decide)),
    lookupA_evtSub_other _ _ _ _ (qtopic_ne k ":mutate" ":set" (by decide)),
    lookupA_evtSub_self,
    lookupA_evtSub_other _ _ _ _ (qtopic_ne k ":mutate" ":error" (by decide)),
    lookupA_evtSub_other _ _ _ _ (qtopic_ne k ":mutate" ":success" (by decide))]
  rfl

theorem lookupA_unsub_sub_set (evt : EvtState) (k : Key) :
    lookupA (setTopic k) (unsubscribe (subscribe evt k) k) =
      some ((match lookupA (setTopic k) evt with
             | some hs => if Handler.mainH k ∈ hs then hs else hs ++ [Handler.mainH k]
             | none => [Handler.mainH k]).erase (Handler.mainH k)) := by
  simp only [unsubscribe, subscribe, successTopic, errorTopic, mutateTopic, setTopic,
    invalidateTopic]
  rw [lookupA_evtUnsub_other _ _ _ _ (qtopic_ne k ":set" ":invalidate" (by decide)),
    lookupA_evtUnsub_self,
    lookupA_evtUnsub_other _ _ _ _ (qtopic_ne k ":set" ":mutate" (by decide)),
    lookupA_evtUnsub_other _ _ _ _ (qtopic_ne k ":set" ":error" (by decide)),
    lookupA_evtUnsub_other _ _ _ _ (qtopic_ne k ":set" ":success" (by decide)),
    lookupA_evtSub_other _ _ _ _ (qtopic_ne k ":set" ":invalidate" (by decide)),
    lookupA_evtSub_self,
    lookupA_evtSub_other _ _ _ _ (qtopic_ne k ":set" ":mutate" (by decide)),
    lookupA_evtSub_other _ _ _ _ (qtopic_ne k ":set" ":error" (by decide)),
    lookupA_evtSub_other _ _ _ _ (qtopic_ne k ":set" ":success" (by decide))]
  rfl

theorem lookupA_unsub_sub_invalidate (evt : EvtState) (k : Key) :
    lookupA (invalidateTopic k) (unsubscribe (subscribe evt k) k) =
      some ((match lookupA (invalidateTopic k) evt with
             | some hs => if Handler.invalH k ∈ hs then hs else hs ++ [Handler.invalH k]
             | none => [Handler.invalH k]).erase (Handler.mainH k)) := by
  simp only [unsubscribe, subscribe, successTopic, errorTopic, mutateTopic, setTopic,
    invalidateTopic]
  rw [lookupA_evtUnsub_self,
    lookupA_evtUnsub_other _ _ _ _ (qtopic_ne k ":invalidate" ":set" (by decide)),
    lookupA_evtUnsub_other _ _ _ _ (qtopic_ne k ":invalidate" ":mutate" (by decide)),
    lookupA_evtUnsub_other _ _ _ _ (qtopic_ne k ":invalidate" ":error" (by decide)),
    lookupA_evtUnsub_other _ _ _ _ (qtopic_ne k ":invalidate" ":success" (by decide)),
    lookupA_evtSub_self,
    lookupA_evtSub_other _ _ _ _ (qtopic_ne k ":invalidate" ":set" (by decide)),
    lookupA_evtSub_other _ _ _ _ (qtopic_ne k ":invalidate" ":mutate" (by decide)),
    lookupA_evtSub_other _ _ _ _ (qtopic_ne k ":invalidate" ":error" (by decide)),
    lookupA_evtSub_other _ _ _ _ (qtopic_ne k ":invalidate" ":success" (by decide))]
  rfl

/-- The fired-handler list of a main topic after subscribe-then-
unsubscribe equals its list before, given that the subscription's own
closures were not previously registered anywhere. -/
theorem evtFired_unsub_sub_main (evt : EvtState) (k : Key) (t : Topic)
    (hl : lookupA t (unsubscribe (subscribe evt k) k) =
      some ((match lookupA t evt with
             | some hs => if Handler.mainH k ∈ hs then hs else hs ++ [Handler.mainH k]
             | none => [Handler.mainH k]).erase (Handler.mainH k)))
    (hcl : ∀ x ∈ evt, Handler.mainH k ∉ x.2 ∧ Handler.invalH k ∉ x.2) :
    evtFired (unsubscribe (subscribe evt k) k) t = evtFired evt t := by
  rw [evtFired, evtFired, hl]
  rcases hv : lookupA t evt with _ | hs
  · simp [List.erase_cons_head]
  · have hnm : Handler.mainH k ∉ hs := (hcl _ (lookupA_mem t hs evt hv)).1
    simp only [Option.getD_some]
    rw [eraseSelf_append hs _ hnm]

theorem callbackCalls_append (k : Key) (arg : Option Entry) (a b : List Handler) :
    callbackCalls (a ++ b) k arg = callbackCalls a k arg ++ callbackCalls b k arg := by
  simp [callbackCalls, List.filterMap_append]

/-- C10. The unsubscribe function returned by `subscribe(key, callback)`
removes the shared handler from the success, error, mutate and set
topics but does not remove the invalidate handler (which was registered
as a distinct anonymous closure): afterwards, publishing on the
invalidate topic still fires that closure — invoking the callback with
`null` — while publishing on the success/error/mutate/set topics no
longer invokes the callback at all. (`hcl` says the subscription's two
closures are fresh, i.e. not previously registered anywhere.) -/
theorem unsubscribe_keeps_invalidate_handler (evt : EvtState) (k : Key)
    (arg : Option Entry)
    (hcl : ∀ x ∈ evt, Handler.mainH k ∉ x.2 ∧ Handler.invalH k ∉ x.2) :
    evtFired (unsubscribe (subscribe evt k) k) (invalidateTopic k) =
      evtFired evt (invalidateTopic k) ++ [Handler.invalH k] ∧
    callbackCalls (evtFired (unsubscribe (subscribe evt k) k) (invalidateTopic k))
      k arg = [none] ∧
    evtFired (unsubscribe (subscribe evt k) k) (successTopic k) =
      evtFired evt (successTopic k) ∧
    evtFired (unsubscribe (subscribe evt k) k) (errorTopic k) =
      evtFired evt (errorTopic k) ∧
    evtFired (unsubscribe (subscribe evt k) k) (mutateTopic k) =
      evtFired evt (mutateTopic k) ∧
    evtFired (unsubscribe (subscribe evt k) k) (setTopic k) =
      evtFired evt (setTopic k) ∧
    callbackCalls (evtFired (unsubscribe (subscribe evt k) k) (successTopic k))
      k arg = [] ∧
    callbackCalls (evtFired (unsubscribe (subscribe evt k) k) (errorTopic k))
      k arg = [] ∧
    callbackCalls (evtFired (unsubscribe (subscribe evt k) k) (mutateTopic k))
      k arg = [] ∧
    callbackCalls (evtFired (unsubscribe (subscribe evt k) k) (setTopic k))
      k arg = [] := by
  have hS := evtFired_unsub_sub_main evt k _ (lookupA_unsub_sub_success evt k) hcl
  have hE := evtFired_unsub_sub_main evt k _ (lookupA_unsub_sub_error evt k) hcl
  have hM := evtFired_unsub_sub_main evt k _ (lookupA_unsub_sub_mutate evt k) hcl
  have hT := evtFired_unsub_sub_main evt k _ (lookupA_unsub_sub_set evt k) hcl
  have hclF : ∀ (t : Topic), ∀ x ∈ evtFired evt t,
      x ≠ Handler.mainH k ∧ x ≠ Handler.invalH k := by
    intro t x hx
    rcases hv : lookupA t evt with _ | hs
    · rw [evtFired, hv] at hx
      simp at hx
    · rw [evtFired, hv] at hx
      simp only [Option.getD_some] at hx
      have hm := hcl _ (lookupA_mem t hs evt hv)
      exact ⟨fun he => hm.1 (he ▸ hx), fun he => hm.2 (he ▸ hx)⟩
  have hI : evtFired (unsubscribe (subscribe evt k) k) (invalidateTopic k) =
      evtFired evt (invalidateTopic k) ++ [Handler.invalH k] := by
    rw [evtFired, lookupA_unsub_sub_invalidate, evtFired]
    rcases hv : lookupA (invalidateTopic k) evt with _ | hs
    · have hb : (Handler.invalH k == Handler.mainH k) = false := by simp
      simp [List.erase, hb]
    · have hm := hcl _ (lookupA_mem _ hs evt hv)
      simp only [Option.getD_some]
      rw [if_neg hm.2, List.erase_of_not_mem (by simp [hm.1])]
  refine ⟨hI, ?_, hS, hE, hM, hT, ?_, ?_, ?_, ?_⟩
  · rw [hI, callbackCalls_append, callbackCalls_nil k arg _ (hclF _)]
    simp [callbackCalls]
  · rw [hS]
    exact callbackCalls_nil k arg _ (hclF _)
  · rw [hE]
    exact callbackCalls_nil k arg _ (hclF _)
  · rw [hM]
    exact callbackCalls_nil k arg _ (hclF _)
  · rw [hT]
    exact callbackCalls_nil k arg _ (hclF _)

/-- Witness for C10: on a fresh bus, after subscribe-then-unsubscribe
for key `"k"`, the invalidate topic still fires the anonymous closure
(invoking the callback with `null`) and the success topic fires
nothing. -/
theorem unsubscribe_keeps_invalidate_handler_witness :
    evtFired (unsubscribe (subscribe [] "k") "k") (invalidateTopic "k") =
      [Handler.invalH "k"] ∧
    callbackCalls (evtFired (unsubscribe (subscribe [] "k") "k")
      (invalidateTopic "k")) "k" (some ⟨.val 1, 0, 0, none, none⟩) = [none] ∧
    evtFired (unsubscribe (subscribe [] "k") "k") (successTopic "k") = [] := by
  have h := unsubscribe_keeps_invalidate_handler [] "k"
    (some ⟨.val 1, 0, 0, none, none⟩) (by simp)
  exact ⟨by rw [h.1]; rfl, h.2.1, by rw [h.2.2.1]; rfl⟩

theorem lookupA_delA_self {α : Type} (k : Key) (l : List (Key × α)) :
    lookupA k (delA k l) = none := by
  induction l with
  | nil => rfl
  | cons hd tl ih =>
    obtain ⟨k', v⟩ := hd
    by_cases h : k' = k
    · subst h
      simpa [delA, List.filter_cons] using ih
    · have hne : k ≠ k' := fun he => h he.symm
      simp only [delA, List.filter_cons]
      rw [if_pos (by simp [h])]
      rw [lookupA_cons, if_neg hne]
      simpa [delA] using ih

theorem lookupA_none_not_mem {α : Type} (k : Key) (l : List (Key × α))
    (h : lookupA k l = none) (x : Key × α) (hx : x ∈ l) : x.1 ≠ k := by
  induction l with
  | nil => simp at hx
  | cons hd tl ih =>
    obtain ⟨k', v⟩ := hd
    rw [lookupA_cons] at h
    by_cases hk : k = k'
    · rw [if_pos hk] at h
      cases h
    · rw [if_neg hk] at h
      rcases List.mem_cons.mp hx with rfl | hx'
      · exact fun he => hk he.symm
      · exact ih h hx'

theorem dueTimer_mem (t : Nat) (l : List (Key × Timer)) (x : Key × Timer)
    (h : dueTimer t l = some x) : x ∈ l := by
  induction l with
  | nil => simp [dueTimer] at h
  | cons hd tl ih =>
    rw [dueTimer] at h
    rcases hd' : dueTimer t tl with _ | b <;> rw [hd'] at h
    · by_cases hle : hd.2.next ≤ t
      · rw [if_pos hle] at h
        injection h with h
        exact h ▸ List.mem_cons_self ..
      · rw [if_neg hle] at h
        cases h
    · have h' : (if hd.2.next ≤ t ∧ hd.2.next ≤ b.2.next then some hd else some b) =
          some x := h
      by_cases hc : hd.2.next ≤ t ∧ hd.2.next ≤ b.2.next
      · rw [if_pos hc] at h'
        injection h' with h'
        exact h' ▸ List.mem_cons_self ..
      · rw [if_neg hc] at h'
        injection h' with h'
        subst h'
        exact List.mem_cons_of_mem _ (ih hd')

theorem stopPolling_eq_found (s : PollState) (k : Key) (x : Timer)
    (h : lookupA k s.timers = some x) :
    stopPolling s k =
      { s with
        timers := delA k s.timers
        q := { s.q with events := s.q.events ++ [.pollingStop k] } } := by
  simp only [stopPolling, h]

theorem stopPolling_absent (s : PollState) (k : Key)
    (h : lookupA k s.timers = none) : stopPolling s k = s := by
  simp only [stopPolling, h]

theorem stopPolling_timers_absent (s : PollState) (k : Key) :
    lookupA k (stopPolling s k).timers = none := by
  rcases h : lookupA k s.timers with _ | x
  · rw [stopPolling_absent s k h]
    exact h
  · rw [stopPolling_eq_found s k x h]
    exact lookupA_delA_self k s.timers

theorem advance_no_polling_fetch (k : Key) (st ttl : Nat) :
    ∀ (fuel : Nat) (s : PollState) (t : Nat), lookupA k s.timers = none →
      (advance fuel s t st ttl).log.filter (fun x => x.1 = k) =
        s.log.filter (fun x => x.1 = k) ∧
      lookupA k (advance fuel s t st ttl).timers = none := by
  intro fuel
  induction fuel with
  | zero => exact fun s t hk => ⟨rfl, hk⟩
  | succ f ih =>
    intro s t hk
    rw [advance]
    rcases hd : dueTimer t s.timers with _ | x
    · exact ⟨rfl, hk⟩
    · have hx : x ∈ s.timers := dueTimer_mem t s.timers x hd
      have hxk : x.1 ≠ k := lookupA_none_not_mem k s.timers hk x hx
      have hk' : lookupA k
          (pollTick { s with timers := setA x.1 ⟨x.2.interval, x.2.next + x.2.interval⟩ s.timers }
            x.1 x.2.next st ttl).timers = none := by
        show lookupA k (setA x.1 ⟨x.2.interval, x.2.next + x.2.interval⟩ s.timers) = none
        rw [lookupA_setA_other _ _ _ _ (fun he => hxk he.symm)]
        exact hk
      obtain ⟨h1, h2⟩ := ih _ t hk'
      refine ⟨?_, h2⟩
      rw [h1]
      show (s.log ++ [(x.1, x.2.next)]).filter (fun y => y.1 = k) = _
      rw [List.filter_append]
      have : ([(x.1, x.2.next)].filter (fun y => y.1 = k)) = [] := by
        simp [List.filter_cons, hxk]
      rw [this, List.append_nil]

/-- C7. Polling schedule and stop: `startPolling` triggers one `query`
call immediately (logged at its start time) and registers an interval
timer first due at `t + interval`; each interval tick first resets the
entry's `staleAt` to `0`, so its `query` call emits a "fetch"
notification (a refetch) rather than a fresh hit, and is logged; after
`stopPolling` — which is what the stop function returned by
`startPolling` invokes — running the event loop any further produces no
polling-initiated `query` call for that key, ever; and `stopPolling` on
a key with no active poll is a no-op (hence idempotent). -/
theorem polling_schedule_stop (s : PollState) (k : Key) (interval t st ttl : Nat) :
    ((startPolling s k interval t st ttl).log = (stopPolling s k).log ++ [(k, t)] ∧
     lookupA k (startPolling s k interval t st ttl).timers =
       some ⟨interval, t + interval⟩) ∧
    (∀ e : Entry, lookupA k s.q.cache = some e → e.promise = none →
      (pollTick s k t st ttl).q.events =
        s.q.events ++ [.fetch k (decide (t < e.expiry)) true] ∧
      (pollTick s k t st ttl).log = s.log ++ [(k, t)]) ∧
    (lookupA k s.timers = none → stopPolling s k = s) ∧
    stopPolling (stopPolling s k) k = stopPolling s k ∧
    (∀ (fuel t' : Nat),
      (advance fuel (stopPolling s k) t' st ttl).log.filter (fun x => x.1 = k) =
        s.log.filter (fun x => x.1 = k)) := by
  refine ⟨⟨rfl, lookupA_setA_self ..⟩, ?_, stopPolling_absent s k, ?_, ?_⟩
  · intro e hce hpr
    have hpt : pollTick s k t st ttl =
        { s with
          q := (query { s.q with cache := setA k { e with staleAt := 0 } s.q.cache }
            k t st ttl).2
          log := s.log ++ [(k, t)] } := by
      simp only [pollTick, hce]
    rw [hpt]
    constructor
    · by_cases hex : t < e.expiry
      · rw [query_eq_stale _ k t st ttl { e with staleAt := 0 }
          (by simp [getEntry]) hpr (Nat.zero_le t) hex]
        simp [hex]
      · rw [query_eq_miss _ k t st ttl { e with staleAt := 0 }
          (by simp [getEntry]) hpr (Nat.zero_le t) (by show e.expiry ≤ t; omega)]
        simp [hex]
    · rfl
  · exact stopPolling_absent _ k (stopPolling_timers_absent s k)
  · intro fuel t'
    have hlog : (stopPolling s k).log = s.log := by
      rcases h : lookupA k s.timers with _ | x
      · rw [stopPolling_absent s k h]
      · rw [stopPolling_eq_found s k x h]
    have h := (advance_no_polling_fetch k st ttl fuel (stopPolling s k) t'
      (stopPolling_timers_absent s k)).1
    rw [h, hlog]

/-- Witness for C7: the spec's scenario. `startPolling("price", fetcher,
1000)` at `t = 0` queries immediately; running the event loop to
`t = 1500` fires the tick at `t = 1000`; `stopPolling("price")` then
prevents any poll-initiated query at `t = 2000` (event loop run to
`t = 2500` adds nothing). -/
theorem polling_schedule_stop_witness :
    (advance 5 (stopPolling (advance 5 (startPolling ⟨⟨[], [], 0, []⟩, [], []⟩
        "price" 1000 0 5000 60000) 1500 5000 60000) "price") 2500 5000 60000).log.filter
      (fun x => x.1 = "price") = [("price", 0), ("price", 1000)] := by
  have h := (polling_schedule_stop (advance 5 (startPolling ⟨⟨[], [], 0, []⟩, [], []⟩
    "price" 1000 0 5000 60000) 1500 5000 60000) "price" 1000 0 5000 60000).2.2.2.2 5 2500
  rw [h]
  decide

theorem settleNotify_eq (c : SignalState) (cche : List (Key × Entry))
    (pnd : List (Nat × Pending)) (np : Nat) (evs : List Event) (p : Nat)
    (pd : Pending) (res : Except Err Val) (t' : Nat) :
    settleNotify c ⟨cche, (p, pd) :: pnd, np, evs⟩ p res t' =
      (qsNotify c (getEntry (settle ⟨cche, (p, pd) :: pnd, np, evs⟩ p res t').2 pd.key),
       (settle ⟨cche, (p, pd) :: pnd, np, evs⟩ p res t').2) := by
  simp [settleNotify, lookupP]

/-- C9 counterexample: the claim "`loading` is true exactly while a
fetch promise is outstanding for the key and no data is yet cached" is
false. With a fresh cached entry (`now = 10 < staleAt = 100`),
`querySignal` with default options takes the fresh-hit path: no fetch
promise is created (the pending table stays empty and the entry's
`promise` stays `null`, data is cached), yet `fetch()` has set the
`loading` cell to `true` and no notification ever resets it. -/
theorem querySignal_loading_counterexample :
    (querySignal ⟨[("users", ⟨.val 5, 100, 200, none, none⟩)], [], 0, []⟩
      "users" 10 5000 60000 true .null).1.loadingC = true ∧
    (querySignal ⟨[("users", ⟨.val 5, 100, 200, none, none⟩)], [], 0, []⟩
      "users" 10 5000 60000 true .null).2.1.pending = [] ∧
    getEntry (querySignal ⟨[("users", ⟨.val 5, 100, 200, none, none⟩)], [], 0, []⟩
      "users" 10 5000 60000 true .null).2.1 "users" =
      some ⟨.val 5, 100, 200, none, none⟩ := by
  decide

/-- C9 (amended). `querySignal`'s `loading` cell is set to `true` when
`fetch()` runs and is recomputed as "promise outstanding and no truthy
data" only on success/error/mutate/set/invalidate notifications; in
particular, with default options and no cached entry for the key, the
signal triggers exactly one fetch at construction, its cells read
`(null, loading = true, no error)` from invocation until that fetch
settles, and after a successful settlement with value `v` the `loading`
cell is `false` and the `data` cell equals `v` when `v` is truthy but
keeps its prior value `null` when `v` is falsy (the handler's
`if (entry?.data)` guard never mirrors falsy data). -/
theorem querySignal_loading_amended (q : QState) (k : Key) (t st ttl t' : Nat)
    (v : Val) (hget : getEntry q k = none) :
    (querySignal q k t st ttl true .null).1 = ⟨.null, true, none⟩ ∧
    (querySignal q k t st ttl true .null).2.2 = some q.nextP ∧
    (settleNotify (querySignal q k t st ttl true .null).1
        (querySignal q k t st ttl true .null).2.1 q.nextP (.ok v) t').1 =
      ⟨if v = 0 then .null else .val v, false, none⟩ := by
  have hq := query_eq_none q k t st ttl hget
  have hqs : querySignal q k t st ttl true .null =
      (⟨.null, true, none⟩,
       ⟨setA k ⟨.undef, 0, 0, some q.nextP, none⟩ q.cache,
        (q.nextP, ⟨k, none, st, ttl⟩) :: q.pending, q.nextP + 1,
        q.events ++ [.fetch k false false]⟩,
       some q.nextP) := by
    simp only [querySignal, hget, hq]
    simp
  refine ⟨by rw [hqs], by rw [hqs], ?_⟩
  rw [hqs]
  rw [settleNotify_eq, settle_eq_ok]
  by_cases hv : v = 0
  · simp [getEntry, qsNotify, JData.truthy, hv]
  · simp [getEntry, qsNotify, JData.truthy, hv]

/-- Witness for C9's amended theorem: an empty cache, key `"users"`.
A fetch resolving with the truthy value `42` leaves the cells at
`(42, false, none)` after settlement; one resolving with the falsy
value `0` leaves them at `(null, false, none)` — loading cleared, data
not mirrored. -/
theorem querySignal_loading_amended_witness :
    (querySignal ⟨[], [], 0, []⟩ "users" 10 5000 60000 true .null).1 =
      ⟨.null, true, none⟩ ∧
    (settleNotify (querySignal ⟨[], [], 0, []⟩ "users" 10 5000 60000 true .null).1
        (querySignal ⟨[], [], 0, []⟩ "users" 10 5000 60000 true .null).2.1
        0 (.ok 42) 20).1 = ⟨.val 42, false, none⟩ ∧
    (settleNotify (querySignal ⟨[], [], 0, []⟩ "users" 10 5000 60000 true .null).1
        (querySignal ⟨[], [], 0, []⟩ "users" 10 5000 60000 true .null).2.1
        0 (.ok 0) 20).1 = ⟨.null, false, none⟩ := by
  have h42 := querySignal_loading_amended ⟨[], [], 0, []⟩ "users" 10 5000 60000 20 42 rfl
  have h0 := querySignal_loading_amended ⟨[], [], 0, []⟩ "users" 10 5000 60000 20 0 rfl
  refine ⟨h42.1, ?_, ?_⟩
  · rw [h42.2.2]
    decide
  · rw [h0.2.2]
    decide

/-- C3. Retry with exponential backoff: with `retries = r` and base delay
`retryDelay = d`, every failed attempt with 0-based index `i < r` is
followed by a "retry" notification carrying attempt number `i + 1`, max
`r`, the delay `d * 2 ^ i` and the error, and a suspension of exactly
`d * 2 ^ i` ms; a fetcher failing `c ≤ r` times then succeeding is
invoked exactly `c + 1` times and `fetchWithRetry` resolves with the
success value; a fetcher failing all `r + 1` attempts makes it reject
with the last error after `r + 1` invocations. -/
theorem fetchWithRetry_backoff (k : Key) (fetcher : Nat → Except Err Val)
    (es : Nat → Err) (r d : Nat) :
    (∀ (c : Nat) (v : Val), c ≤ r →
      (∀ i, i < c → fetcher i = .error (es i)) →
      fetcher c = .ok v →
      fetchWithRetry k fetcher r d =
        ⟨.ok v, c + 1,
         (List.range c).map (fun i => d * 2 ^ i),
         (List.range c).map (fun i =>
           Event.retry k (i + 1) r (d * 2 ^ i) (es i))⟩) ∧
    ((∀ i, i ≤ r → fetcher i = .error (es i)) →
      fetchWithRetry k fetcher r d =
        ⟨.error (es r), r + 1,
         (List.range r).map (fun i => d * 2 ^ i),
         (List.range r).map (fun i =>
           Event.retry k (i + 1) r (d * 2 ^ i) (es i))⟩) := by
  constructor
  · intro c v hc hfail hok
    have h := fetchGo_ok k fetcher es r d v c 0 r hc
      (fun i hi => by simpa using hfail i hi)
      (by simpa using hok)
    rw [fetchWithRetry, h, List.range_eq_range']
  · intro hfail
    have h := fetchGo_fail k fetcher es r d r 0
      (fun i hi => by simpa using hfail i hi)
    rw [fetchWithRetry, h, List.range_eq_range']
    simp

/-- Witness for C3: the spec's own scenario, `retries = 2`,
`retryDelay = 10`, a fetcher failing twice then succeeding: 3 calls,
delays 10 ms then 20 ms, and "retry" notifications for attempts 1 and 2. -/
theorem fetchWithRetry_backoff_witness :
    fetchWithRetry "k"
      (fun i => if i = 0 then .error "e0" else if i = 1 then .error "e1" else .ok 7)
      2 10 =
      ⟨.ok 7, 3, [10, 20],
       [Event.retry "k" 1 2 10 "e0", Event.retry "k" 2 2 20 "e1"]⟩ := by
  have h := (fetchWithRetry_backoff "k"
      (fun i => if i = 0 then .error "e0" else if i = 1 then .error "e1" else .ok 7)
      (fun i => if i = 0 then "e0" else "e1") 2 10).1 2 7
      (by omega)
      (by decide)
      (by decide)
  rw [h]
  decide

end Vaniy
